import Mathlib

/-!
# urlshort: redirect handlers over layered lookup tables

A shallow embedding of `handler.go` (package `urlshort`) and of the handler
chain that `main/main.go` assembles, followed by theorems about them.

Modelling conventions.

* A Go `map[string]string` is the function that its comma-ok lookup computes:
  `m k = some v` when `k` is a key holding `v`, `m k = none` when `k` is not a
  key.  `GoMap.make` is `make(map[string]string)` and `GoMap.set` is the
  assignment `m[k] = v`.
* `net/http`, `encoding/json` and `gopkg.in/yaml.v2` are libraries outside the
  repository.  Their entry points that the code calls (`http.Redirect`,
  `fmt.Fprintln` on the response writer, `yaml.Unmarshal`, `json.Unmarshal`)
  are parameters of the embedding, and the theorems hold for every library.
  Where a statement is about the Location header itself, the library is
  `netHttp`, which follows the code of `http.Redirect` in Go's standard
  library on the targets it covers.
* A handler is a state transformer on the response writer: `ServeHTTP(w, r)`
  takes the writer state before the call to the writer state after it.
-/

namespace Urlshort

/-! ## Data model -/

/-- The part of `net/url.URL` a request carries: the path the handlers look up
and the raw query string. -/
structure URL where
  Path : String
  RawQuery : String
  deriving DecidableEq, Repr

/-- An `http.Request`: method, URL, header fields and body. -/
structure Request where
  Method : String
  URL : URL
  Header : List (String × String)
  Body : String
  deriving DecidableEq, Repr

/-- The type `Entry` of `handler.go`: one (path, url) record of a source. -/
structure Entry where
  Path : String
  URL : String
  deriving DecidableEq, Repr

/-- A Go `map[string]string`, as its lookup function. -/
def GoMap : Type := String → Option String

namespace GoMap

/-- The empty map, `make(map[string]string)`. -/
def make : GoMap := fun _ => none

/-- The comma-ok lookup `v, exist := m[k]`: `some v` when `exist`, else `none`. -/
def get (m : GoMap) (k : String) : Option String := m k

/-- The assignment `m[k] = v`, overwriting any value `k` held. -/
def set (m : GoMap) (k v : String) : GoMap :=
  fun k' => if k' = k then some v else m k'

/-- A map literal `map[string]string{k1: v1, ...}`. -/
def ofList (kvs : List (String × String)) : GoMap :=
  kvs.foldl (fun m kv => m.set kv.1 kv.2) make

end GoMap

/-- Go's `error` values, by their message. -/
abbrev Error : Type := String

/-- The constant `http.StatusFound`. -/
def StatusFound : Nat := 302

/-- The library calls the handlers make on a response writer whose state has
type `σ`: `http.Redirect(w, r, url, code)` and `fmt.Fprintln(w, s)`. -/
structure Http (σ : Type) where
  Redirect : σ → Request → String → Nat → σ
  Fprintln : σ → String → σ

/-- An `http.Handler`: `ServeHTTP(w, r)` as a transformer of the writer state. -/
abbrev Handler (σ : Type) : Type := σ → Request → σ

/-! ## handler.go -/

/-- The function `MapHandler` of `handler.go`. -/
def MapHandler {σ : Type} (http : Http σ) (pathsToUrls : GoMap) (fallback : Handler σ) :
    Handler σ :=
  fun w r =>
    match pathsToUrls.get r.URL.Path with
    | some redirect => http.Redirect w r redirect StatusFound
    | none => fallback w r

/-- The range loop of `createMap` in `handler.go`: for each `item` of
`entryData` in order, the assignment `pathMap[item.Path] = item.URL`, started
from the map `pathMap`. -/
def createMapFrom (pathMap : GoMap) (entryData : List Entry) : GoMap :=
  entryData.foldl (fun pathMap item => pathMap.set item.Path item.URL) pathMap

/-- The function `createMap` of `handler.go`: the loop run on a fresh map. -/
def createMap (entryData : List Entry) : GoMap :=
  createMapFrom GoMap.make entryData

/-- A library decoder `Unmarshal(bytes, &out)`: from the input bytes and the
value `out` holds before the call, the value it holds after the call and the
returned error (`none` for `nil`). -/
abbrev Unmarshal : Type := List UInt8 → List Entry → List Entry × Option Error

/-- The function `parseYml` of `handler.go`: the pair (entries, error); the
`nil` slice returned beside an error is the empty list. -/
def parseYml (yamlUnmarshal : Unmarshal) (ymlBytes : List UInt8) :
    List Entry × Option Error :=
  match yamlUnmarshal ymlBytes [] with
  | (_, some err) => ([], some err)
  | (ymlData, none) => (ymlData, none)

/-- The function `parseJSON` of `handler.go`. -/
def parseJSON (jsonUnmarshal : Unmarshal) (jsonBytes : List UInt8) :
    List Entry × Option Error :=
  match jsonUnmarshal jsonBytes [] with
  | (_, some err) => ([], some err)
  | (jsonData, none) => (jsonData, none)

/-- The function `YAMLHandler` of `handler.go`: the pair (handler, error), with
`none` for `nil` in either place. -/
def YAMLHandler {σ : Type} (http : Http σ) (yamlUnmarshal : Unmarshal)
    (ymlBytes : List UInt8) (fallback : Handler σ) : Option (Handler σ) × Option Error :=
  match parseYml yamlUnmarshal ymlBytes with
  | (_, some err) => (none, some err)
  | (ymlData, none) =>
    let pathMap := createMap ymlData
    (some (MapHandler http pathMap fallback), none)

/-- The function `JSONHandler` of `handler.go`. -/
def JSONHandler {σ : Type} (http : Http σ) (jsonUnmarshal : Unmarshal)
    (jsonBytes : List UInt8) (fallback : Handler σ) : Option (Handler σ) × Option Error :=
  match parseJSON jsonUnmarshal jsonBytes with
  | (_, some err) => (none, some err)
  | (jsonData, none) =>
    let pathMap := createMap jsonData
    (some (MapHandler http pathMap fallback), none)

/-! ## main/main.go -/

/-- The function `hello` of `main.go`, the handler the default mux serves. -/
def hello {σ : Type} (http : Http σ) : Handler σ :=
  fun w _ => http.Fprintln w "Hello, world!"

/-- The handler chain of `main`: starting from the default handler, each table
in turn is wrapped around the handler built so far
(`handler = MapHandler(table, handler)`), so the last table is outermost. -/
def chain {σ : Type} (http : Http σ) (tables : List GoMap) (D : Handler σ) : Handler σ :=
  tables.foldl (fun handler table => MapHandler http table handler) D

/-! ## Instrumentation used to state the theorems -/

/-- One library call recorded on a response writer. -/
inductive Call where
  | redirect (r : Request) (url : String) (code : Nat)
  | fprintln (s : String)
  deriving DecidableEq, Repr

/-- A response writer that records, in order, the library calls made on it. -/
def recorder : Http (List Call) where
  Redirect := fun w r url code => w ++ [Call.redirect r url code]
  Fprintln := fun w s => w ++ [Call.fprintln s]

/-- The library `http` on a writer state paired with a log of requests; the
library calls leave the log alone. -/
def Http.logged {σ : Type} (http : Http σ) : Http (σ × List Request) where
  Redirect := fun w r url code => (http.Redirect w.1 r url code, w.2)
  Fprintln := fun w s => (http.Fprintln w.1 s, w.2)

/-- The handler `F` with every invocation observed: each call of its
`ServeHTTP` appends the request it was given to the log. -/
def spied {σ : Type} (F : Handler σ) : Handler (σ × List Request) :=
  fun w r => (F w.1 r, w.2 ++ [r])

/-- A GET request for `path` with nothing else set. -/
def getRequest (path : String) : Request :=
  { Method := "GET", URL := { Path := path, RawQuery := "" }, Header := [], Body := "" }

/-- The union of `T1` and `T2` keeping `T2`'s value on common keys. -/
def merge (T1 T2 : GoMap) : GoMap :=
  fun k => match T2 k with
    | some v => some v
    | none => T1 k

/-- The right-biased merge of a list of tables, later tables overriding. -/
def mergeAll (tables : List GoMap) : GoMap :=
  tables.foldl merge GoMap.make

/-! ## The Location header `net/http` sends

`http.Redirect` belongs to Go's standard library.  The definitions below follow
its code for two classes of targets on which its outcome does not depend on
the details of `url.Parse`; every other case is reported as `Reply.unmodelled`.
Strings are handled as their lists of characters; on the printable ASCII
strings the model covers these are the bytes Go works on, and
`hexEscapeNonASCII` leaves them as they are.
-/

/-- An ASCII letter. -/
def isLetter (c : Char) : Bool :=
  (97 ≤ c.toNat && c.toNat ≤ 122) || (65 ≤ c.toNat && c.toNat ≤ 90)

/-- An ASCII digit. -/
def isDigit (c : Char) : Bool := 48 ≤ c.toNat && c.toNat ≤ 57

/-- A printable ASCII character other than the blank (0x21 to 0x7e). -/
def isPrintable (c : Char) : Bool := 33 ≤ c.toNat && c.toNat ≤ 126

/-- A letter, a digit, or one of `-`, `_`, `.`, `/`. -/
def isPlain (c : Char) : Bool :=
  isLetter c || isDigit c || c == '-' || c == '_' || c == '.' || c == '/'

/-- The loop of `getScheme` in `net/url` after its first character: letters,
digits, `+`, `-` and `.` are read on, a `:` ends a scheme (`true`), anything
else or the end of the string means there is no scheme (`false`). -/
def schemeTail : List Char → Bool
  | [] => false
  | c :: cs =>
    if isLetter c || isDigit c || c == '+' || c == '-' || c == '.' then schemeTail cs
    else c == ':'

/-- Whether `getScheme` of `net/url` finds a non-empty scheme: a letter, then
the loop above.  `url.Parse` of such a string either fails or returns a URL
with that scheme, and `http.Redirect` leaves the target as it is either way. -/
def hasScheme : List Char → Bool
  | [] => false
  | c :: cs => isLetter c && schemeTail cs

/-- A target `url.Parse` accepts with empty scheme and empty host whatever its
details: plain characters only (so no `:`, `?`, `#`, `%` or control
character), not starting with `//`. -/
def isPlainRelative (url : List Char) : Bool :=
  url.all isPlain && !(url.take 2 == ['/', '/'])

/-- The first result of `path.Split`: the path up to and including its last
slash, empty when it has none. -/
def pathDir (p : List Char) : List Char :=
  (p.reverse.dropWhile (fun c => c != '/')).reverse

/-- The elements of a path between its slashes. -/
def splitSlash : List Char → List (List Char)
  | [] => [[]]
  | c :: cs =>
    if c == '/' then [] :: splitSlash cs
    else
      match splitSlash cs with
      | [] => [[c]]
      | seg :: segs => (c :: seg) :: segs

/-- One element read by `path.Clean`, on the elements kept so far (last one
first): empty and `.` elements are dropped; `..` removes the element before
it, is dropped at the root, and is kept at the start of a path that is not
rooted. -/
def cleanStep (rooted : Bool) (kept : List (List Char)) (seg : List Char) :
    List (List Char) :=
  if seg == [] || seg == ['.'] then kept
  else if seg == ['.', '.'] then
    match kept with
    | [] => if rooted then [] else [seg]
    | top :: rest => if top == ['.', '.'] then seg :: kept else rest
  else seg :: kept

/-- The function `path.Clean` of Go's standard library. -/
def pathClean (p : List Char) : List Char :=
  let rooted := p.head? == some '/'
  let kept := ((splitSlash p).foldl (cleanStep rooted) []).reverse
  let body := List.intercalate ['/'] kept
  let out := if rooted then '/' :: body else body
  if out == [] then ['.'] else out

/-- The branch of `http.Redirect` for a target without scheme and host: a
target that does not start with a slash is put behind the directory of the
request path (`/` when that path is empty), the query is set aside at the
first `?`, the path is cleaned keeping a trailing slash, and the query is put
back. -/
def resolveRelative (oldpath url : List Char) : List Char :=
  let oldpath := if oldpath == [] then ['/'] else oldpath
  let url := if url.head? == some '/' then url else pathDir oldpath ++ url
  let path := url.takeWhile (fun c => c != '?')
  let query := url.dropWhile (fun c => c != '?')
  let trailing := path.getLast? == some '/'
  let cleaned := pathClean path
  let cleaned := if trailing && !(cleaned.getLast? == some '/') then cleaned ++ ['/'] else cleaned
  cleaned ++ query

/-- The value `http.Redirect(w, r, url, code)` gives the Location header, for
the request path `oldpath`: the target itself when it is printable ASCII with
a scheme, the resolved path when it is a plain relative target and the
request path is printable ASCII, and `none` for the targets this model does
not cover. -/
def redirectLocation (oldpath url : String) : Option String :=
  if url.data.all isPrintable && hasScheme url.data then some url
  else if isPlainRelative url.data && oldpath.data.all isPrintable then
    some (String.mk (resolveRelative oldpath.data url.data))
  else none

/-- What has gone out on a connection, as far as redirects are concerned:
nothing yet, a status line with the Location header if one was set, or a
redirect outside what `redirectLocation` covers.  Bodies are not recorded. -/
inductive Reply where
  | pending
  | sent (status : Nat) (location : Option String)
  | unmodelled
  deriving DecidableEq, Repr

/-- The response writer of `net/http` observed through `Reply`:
`http.Redirect` on a fresh connection sends the status `code` (a code
`WriteHeader` accepts as final, 200 to 999) with the Location header of
`redirectLocation`; `fmt.Fprintln` on a fresh connection sends status 200;
once the status line is out neither changes it. -/
def netHttp : Http Reply where
  Redirect := fun w r url code =>
    match w with
    | Reply.pending =>
      if 200 ≤ code && code ≤ 999 then
        match redirectLocation r.URL.Path url with
        | some location => Reply.sent code (some location)
        | none => Reply.unmodelled
      else Reply.unmodelled
    | w => w
  Fprintln := fun w _ =>
    match w with
    | Reply.pending => Reply.sent 200 none
    | w => w

/-! ## Lemmas on maps and `createMap` -/

theorem GoMap.get_set_same (m : GoMap) (k v : String) : (m.set k v).get k = some v := by
  simp [GoMap.get, GoMap.set]

theorem GoMap.get_set_other (m : GoMap) (k v k' : String) (h : k' ≠ k) :
    (m.set k v).get k' = m.get k' := by
  simp [GoMap.get, GoMap.set, h]

theorem createMapFrom_miss (p : String) (es : List Entry) (m : GoMap)
    (h : ∀ e ∈ es, e.Path ≠ p) : (createMapFrom m es).get p = m.get p := by
  induction es generalizing m with
  | nil => rfl
  | cons e es ih =>
    have h1 : e.Path ≠ p := h e (List.mem_cons_self _ _)
    have h2 : ∀ x ∈ es, x.Path ≠ p := fun x hx => h x (List.mem_cons_of_mem _ hx)
    show (createMapFrom (m.set e.Path e.URL) es).get p = m.get p
    rw [ih _ h2]
    exact GoMap.get_set_other m e.Path e.URL p (Ne.symm h1)

theorem createMapFrom_append (m : GoMap) (xs ys : List Entry) :
    createMapFrom m (xs ++ ys) = createMapFrom (createMapFrom m xs) ys := by
  simp [createMapFrom, List.foldl_append]

theorem createMapFrom_last (m : GoMap) (pre post : List Entry) (e : Entry)
    (h : ∀ x ∈ post, x.Path ≠ e.Path) :
    (createMapFrom m (pre ++ e :: post)).get e.Path = some e.URL := by
  rw [createMapFrom_append]
  show (createMapFrom ((createMapFrom m pre).set e.Path e.URL) post).get e.Path = some e.URL
  rw [createMapFrom_miss e.Path post _ h]
  exact GoMap.get_set_same _ _ _

theorem exists_last_entry (p : String) (es : List Entry) (h : ∃ e ∈ es, e.Path = p) :
    ∃ pre e post, es = pre ++ e :: post ∧ e.Path = p ∧ ∀ x ∈ post, x.Path ≠ p := by
  induction es with
  | nil => obtain ⟨e, he, _⟩ := h; cases he
  | cons a es ih =>
    by_cases hr : ∃ e ∈ es, e.Path = p
    · obtain ⟨pre, e, post, heq, hp, hpost⟩ := ih hr
      exact ⟨a :: pre, e, post, by rw [heq]; rfl, hp, hpost⟩
    · obtain ⟨e, he, hp⟩ := h
      rcases List.mem_cons.mp he with rfl | he
      · refine ⟨[], e, es, rfl, hp, ?_⟩
        intro x hx hxp
        exact hr ⟨x, hx, hxp⟩
      · exact absurd ⟨e, he, hp⟩ hr


theorem createMapFrom_eq_merge (m : GoMap) (es : List Entry) :
    createMapFrom m es = merge m (createMap es) := by
  funext k
  by_cases hk : ∃ e ∈ es, e.Path = k
  · obtain ⟨pre, e, post, heq, hp, hpost⟩ := exists_last_entry k es hk
    subst hp
    have h1 := createMapFrom_last m pre post e hpost
    have h2 := createMapFrom_last GoMap.make pre post e hpost
    rw [← heq] at h1 h2
    simp only [GoMap.get, createMap] at h1 h2 ⊢
    simp only [merge, h1, h2]
  · have hmiss : ∀ e ∈ es, e.Path ≠ k := fun e he hp => hk ⟨e, he, hp⟩
    have h1 := createMapFrom_miss k es m hmiss
    have h2 := createMapFrom_miss k es GoMap.make hmiss
    simp only [GoMap.get, createMap] at h1 h2 ⊢
    simp only [merge, h1, h2, GoMap.make]

/-! ## Lemmas on `MapHandler` and `chain` -/

theorem MapHandler_some {σ : Type} (http : Http σ) (T : GoMap) (F : Handler σ) (w : σ)
    (r : Request) (u : String) (h : T.get r.URL.Path = some u) :
    MapHandler http T F w r = http.Redirect w r u StatusFound := by
  simp only [MapHandler, h]

theorem MapHandler_none {σ : Type} (http : Http σ) (T : GoMap) (F : Handler σ) (w : σ)
    (r : Request) (h : T.get r.URL.Path = none) : MapHandler http T F w r = F w r := by
  simp only [MapHandler, h]

theorem MapHandler_merge {σ : Type} (http : Http σ) (T1 T2 : GoMap) (D : Handler σ) :
    MapHandler http T2 (MapHandler http T1 D) = MapHandler http (merge T1 T2) D := by
  funext w r
  cases h2 : T2 r.URL.Path with
  | none => simp only [MapHandler, GoMap.get, merge, h2]
  | some u => simp only [MapHandler, GoMap.get, merge, h2]

theorem MapHandler_make {σ : Type} (http : Http σ) (D : Handler σ) :
    MapHandler http GoMap.make D = D := by
  funext w r
  rfl

theorem chain_snoc {σ : Type} (http : Http σ) (Ts : List GoMap) (T : GoMap) (D : Handler σ) :
    chain http (Ts ++ [T]) D = MapHandler http T (chain http Ts D) := by
  simp [chain, List.foldl_append]

theorem chain_eq_mergeAll {σ : Type} (http : Http σ) (Ts : List GoMap) (D : Handler σ) :
    chain http Ts D = MapHandler http (mergeAll Ts) D := by
  induction Ts using List.reverseRecOn with
  | nil => exact (MapHandler_make http D).symm
  | append_singleton Ts T ih =>
    rw [chain_snoc, ih, MapHandler_merge]
    simp [mergeAll, List.foldl_append]

theorem chain_miss {σ : Type} (http : Http σ) (Ts : List GoMap) (D : Handler σ) (w : σ)
    (r : Request) (h : ∀ T ∈ Ts, T.get r.URL.Path = none) : chain http Ts D w r = D w r := by
  induction Ts using List.reverseRecOn with
  | nil => rfl
  | append_singleton Ts T ih =>
    rw [chain_snoc, MapHandler_none http T _ w r (h T (by simp))]
    exact ih (fun T' hT' => h T' (by simp [hT']))

theorem chain_hit {σ : Type} (http : Http σ) (pre post : List GoMap) (T : GoMap)
    (D : Handler σ) (w : σ) (r : Request) (u : String) (hT : T.get r.URL.Path = some u)
    (hpost : ∀ T' ∈ post, T'.get r.URL.Path = none) :
    chain http (pre ++ T :: post) D w r = http.Redirect w r u StatusFound := by
  have hsplit : chain http (pre ++ T :: post) D
      = chain http post (MapHandler http T (chain http pre D)) := by
    simp [chain, List.foldl_append]
  rw [hsplit, chain_miss http post _ w r hpost]
  exact MapHandler_some http T _ w r u hT

theorem split_at_index {α : Type} (xs : List α) (i : Nat) (x : α) (h : xs[i]? = some x) :
    xs = xs.take i ++ x :: xs.drop (i + 1) ∧ (xs.take i).length = i := by
  have hlt : i < xs.length := by
    by_contra hge
    rw [List.getElem?_eq_none (by omega)] at h
    cases h
  have hx : xs[i] = x := by
    rw [List.getElem?_eq_getElem hlt] at h
    exact Option.some.inj h
  refine ⟨?_, by simp [List.length_take]; omega⟩
  rw [← hx, ← List.drop_eq_getElem_cons hlt, List.take_append_drop]

theorem chain_hit_index {σ : Type} (http : Http σ) (Ts : List GoMap) (D : Handler σ) (w : σ)
    (r : Request) (i : Nat) (T : GoMap) (u : String) (hi : Ts[i]? = some T)
    (hT : T.get r.URL.Path = some u)
    (hlater : ∀ (j : Nat) (T' : GoMap), i < j → Ts[j]? = some T' → T'.get r.URL.Path = none) :
    chain http Ts D w r = http.Redirect w r u StatusFound := by
  obtain ⟨hsplit, hlen⟩ := split_at_index Ts i T hi
  rw [hsplit]
  apply chain_hit http _ _ T D w r u hT
  intro T' hT'
  obtain ⟨n, hn⟩ := List.getElem?_of_mem hT'
  apply hlater (i + 1 + n) T' (by omega)
  rw [← hn, List.getElem?_drop]

theorem chain_congr {σ : Type} (http : Http σ) (Ts : List GoMap) (D D' : Handler σ)
    (h : ∀ w r, D w r = D' w r) (w : σ) (r : Request) :
    chain http Ts D w r = chain http Ts D' w r := by
  have hD : D = D' := by
    funext w r
    exact h w r
  rw [hD]

theorem chain_redirect_or_default {σ : Type} (http : Http σ) (Ts : List GoMap) (D : Handler σ)
    (w : σ) (r : Request) :
    (∃ u, (mergeAll Ts).get r.URL.Path = some u
        ∧ chain http Ts D w r = http.Redirect w r u StatusFound)
    ∨ ((mergeAll Ts).get r.URL.Path = none ∧ chain http Ts D w r = D w r) := by
  rw [chain_eq_mergeAll]
  cases h : (mergeAll Ts).get r.URL.Path with
  | none => exact Or.inr ⟨rfl, MapHandler_none http _ D w r h⟩
  | some u => exact Or.inl ⟨u, rfl, MapHandler_some http _ D w r u h⟩

/-! ## `MapHandler`: hit and miss -/

/-- C1, as the code has it. Hit case of `MapHandler`: when the request path is
a key of the table holding `u`, the handler's whole effect is the call
`http.Redirect(w, r, u, http.StatusFound)`, with `StatusFound = 302` and the
stored string `u` passed unchanged as the target; the result does not depend
on the fallback, and a fallback whose invocations are logged leaves the log
as it was (it is never invoked).  On a fresh `net/http` connection the reply
has status 302, and its Location header is exactly `u` when `u` is printable
ASCII that begins with a URL scheme. -/
theorem MapHandler_hit {σ : Type} (http : Http σ) (T : GoMap) (F : Handler σ) (w : σ)
    (r : Request) (u : String) (h : T.get r.URL.Path = some u) :
    MapHandler http T F w r = http.Redirect w r u 302
    ∧ (∀ F' : Handler σ, MapHandler http T F' w r = MapHandler http T F w r)
    ∧ (∀ log : List Request,
        MapHandler http.logged T (spied F) (w, log) r = (http.Redirect w r u 302, log))
    ∧ (∀ D : Handler Reply, u.data.all isPrintable = true → hasScheme u.data = true →
        MapHandler netHttp T D Reply.pending r = Reply.sent 302 (some u)
        ∧ ∀ log : List Request,
            MapHandler netHttp.logged T (spied D) (Reply.pending, log) r
              = (Reply.sent 302 (some u), log)) := by
  refine ⟨?_, ?_, ?_, ?_⟩
  · simp only [MapHandler, h, StatusFound]
  · intro F'
    simp only [MapHandler, h]
  · intro log
    simp only [MapHandler, h, StatusFound, Http.logged]
  · intro D hprint hscheme
    have hloc : redirectLocation r.URL.Path u = some u := by
      simp only [redirectLocation, hprint, hscheme, Bool.and_self, if_true]
    have hsend : netHttp.Redirect Reply.pending r u 302 = Reply.sent 302 (some u) := by
      simp only [netHttp, hloc]
      rfl
    refine ⟨?_, ?_⟩
    · simp only [MapHandler, h, StatusFound, hsend]
    · intro log
      simp only [MapHandler, h, StatusFound, Http.logged, hsend]

/-- Witness of C1: the table {"/go": "https://go.dev"} on a GET of "/go". -/
theorem MapHandler_hit_witness :
    (GoMap.ofList [("/go", "https://go.dev")]).get (getRequest "/go").URL.Path
        = some "https://go.dev"
    ∧ MapHandler recorder (GoMap.ofList [("/go", "https://go.dev")]) (hello recorder) []
        (getRequest "/go") = [Call.redirect (getRequest "/go") "https://go.dev" 302]
    ∧ MapHandler recorder.logged (GoMap.ofList [("/go", "https://go.dev")])
        (spied (hello recorder)) ([], []) (getRequest "/go")
        = ([Call.redirect (getRequest "/go") "https://go.dev" 302], [])
    ∧ MapHandler netHttp (GoMap.ofList [("/go", "https://go.dev")]) (hello netHttp)
        Reply.pending (getRequest "/go") = Reply.sent 302 (some "https://go.dev") :=
  have hw := MapHandler_hit recorder (GoMap.ofList [("/go", "https://go.dev")])
    (hello recorder) [] (getRequest "/go") "https://go.dev" (by decide)
  ⟨by decide, hw.1, hw.2.2.1 [], (hw.2.2.2 (hello netHttp) (by decide) (by decide)).1⟩

/-- Counterexample to C1 as stated: with the table {"/x/y": "rel"} a GET of
"/x/y" is a hit on the stored string "rel", and the reply `net/http` sends
carries the Location "/x/rel", the target resolved against the request path,
not the stored string. -/
theorem MapHandler_hit_relative_target :
    (GoMap.ofList [("/x/y", "rel")]).get (getRequest "/x/y").URL.Path = some "rel"
    ∧ MapHandler netHttp (GoMap.ofList [("/x/y", "rel")]) (hello netHttp) Reply.pending
        (getRequest "/x/y") = Reply.sent 302 (some "/x/rel")
    ∧ MapHandler netHttp (GoMap.ofList [("/x/y", "rel")]) (hello netHttp) Reply.pending
        (getRequest "/x/y") ≠ Reply.sent 302 (some "rel") := by
  refine ⟨by decide, by decide, by decide⟩

/-- C2. Miss case of `MapHandler`: when the request path is not a key of the
table, the handler's result is the fallback's result on the same writer state
and the same request (no redirect is issued first), and a fallback whose
invocations are logged has logged exactly one more invocation, with the
original request. -/
theorem MapHandler_miss {σ : Type} (http : Http σ) (T : GoMap) (F : Handler σ) (w : σ)
    (r : Request) (h : T.get r.URL.Path = none) :
    MapHandler http T F w r = F w r
    ∧ (∀ log : List Request,
        MapHandler http.logged T (spied F) (w, log) r = (F w r, log ++ [r])) := by
  refine ⟨?_, ?_⟩
  · simp only [MapHandler, h]
  · intro log
    simp only [MapHandler, h, spied]

/-- Witness of C2: the table {"/go": "https://go.dev"} on a GET of "/other". -/
theorem MapHandler_miss_witness :
    (GoMap.ofList [("/go", "https://go.dev")]).get (getRequest "/other").URL.Path = none
    ∧ MapHandler recorder (GoMap.ofList [("/go", "https://go.dev")]) (hello recorder) []
        (getRequest "/other") = [Call.fprintln "Hello, world!"]
    ∧ MapHandler recorder.logged (GoMap.ofList [("/go", "https://go.dev")])
        (spied (hello recorder)) ([], []) (getRequest "/other")
        = ([Call.fprintln "Hello, world!"], [getRequest "/other"]) :=
  have hw := MapHandler_miss recorder (GoMap.ofList [("/go", "https://go.dev")])
    (hello recorder) [] (getRequest "/other") (by decide)
  ⟨by decide, hw.1, hw.2 []⟩

/-! ## `createMap` -/

/-- C3. `createMap` is last-wins and total: if some entry has path `p`, the
sequence splits at the last such entry `e` (no entry after it has path `p`)
and the table holds `e.URL` at `p`; if no entry has path `p`, then `p` is not
a key; the empty sequence gives the empty table; and
[("/a","u1"), ("/a","u2")] gives "u2" at "/a".  Being a total function it
returns a table for every sequence. -/
theorem createMap_last_wins :
    (∀ (entries : List Entry) (p : String), (∃ e ∈ entries, e.Path = p) →
      ∃ pre e post, entries = pre ++ e :: post ∧ e.Path = p ∧ (∀ x ∈ post, x.Path ≠ p)
        ∧ (createMap entries).get p = some e.URL)
    ∧ (∀ (entries : List Entry) (p : String), (∀ e ∈ entries, e.Path ≠ p) →
        (createMap entries).get p = none)
    ∧ createMap [] = GoMap.make
    ∧ (createMap [⟨"/a", "u1"⟩, ⟨"/a", "u2"⟩]).get "/a" = some "u2" := by
  refine ⟨?_, ?_, rfl, by decide⟩
  · intro entries p h
    obtain ⟨pre, e, post, heq, hp, hpost⟩ := exists_last_entry p entries h
    refine ⟨pre, e, post, heq, hp, hpost, ?_⟩
    subst hp
    rw [heq]
    exact createMapFrom_last GoMap.make pre post e hpost
  · intro entries p h
    exact createMapFrom_miss p entries GoMap.make h

/-- Witness of C3: in [("/a","u1"), ("/b","v"), ("/a","u2")] some entry has path
"/a", and none has path "/c". -/
theorem createMap_last_wins_witness :
    (∃ pre e post, [(⟨"/a", "u1"⟩ : Entry), ⟨"/b", "v"⟩, ⟨"/a", "u2"⟩] = pre ++ e :: post
        ∧ e.Path = "/a" ∧ (∀ x ∈ post, x.Path ≠ "/a")
        ∧ (createMap [⟨"/a", "u1"⟩, ⟨"/b", "v"⟩, ⟨"/a", "u2"⟩]).get "/a" = some e.URL)
    ∧ (createMap [⟨"/a", "u1"⟩, ⟨"/b", "v"⟩, ⟨"/a", "u2"⟩]).get "/c" = none :=
  ⟨createMap_last_wins.1 _ "/a" ⟨⟨"/a", "u1"⟩, by decide, rfl⟩,
   createMap_last_wins.2.1 _ "/c" (by decide)⟩

/-- C7, as the code has it: the keys of the table `createMap` builds are
exactly the paths of the entries, whatever the entries; so the table has no
empty-string key when every entry's path is non-empty, and it has that key
when some entry's path is empty. -/
theorem createMap_keys_nonempty (entries : List Entry) :
    (∀ k : String, (createMap entries).get k ≠ none ↔ ∃ e ∈ entries, e.Path = k)
    ∧ ((∀ e ∈ entries, e.Path ≠ "") → (createMap entries).get "" = none)
    ∧ ((∃ e ∈ entries, e.Path = "") → (createMap entries).get "" ≠ none) := by
  have hkey : ∀ k : String, (createMap entries).get k ≠ none ↔ ∃ e ∈ entries, e.Path = k := by
    intro k
    constructor
    · intro hk
      by_contra hno
      apply hk
      apply createMapFrom_miss k entries GoMap.make
      intro e he hp
      exact hno ⟨e, he, hp⟩
    · intro hex hnone
      obtain ⟨pre, e, post, heq, hp, hpost⟩ := exists_last_entry k entries hex
      subst hp
      have hget := createMapFrom_last GoMap.make pre post e hpost
      rw [← heq] at hget
      have hget2 : (createMap entries).get e.Path = some e.URL := hget
      rw [hget2] at hnone
      cases hnone
  refine ⟨hkey, ?_, ?_⟩
  · intro h
    exact createMapFrom_miss "" entries GoMap.make h
  · intro hex
    exact (hkey "").mpr hex

/-- Witness of C7: the entries [("/a", "u")] have "/a" as a key and not the
empty string; the entries [("", "u")] have the empty string as a key. -/
theorem createMap_keys_nonempty_witness :
    (∀ e ∈ [(⟨"/a", "u"⟩ : Entry)], e.Path ≠ "")
    ∧ (createMap [⟨"/a", "u"⟩]).get "" = none
    ∧ (createMap [⟨"/a", "u"⟩]).get "/a" ≠ none
    ∧ (createMap [⟨"", "u"⟩]).get "" ≠ none :=
  ⟨by decide, (createMap_keys_nonempty [⟨"/a", "u"⟩]).2.1 (by decide),
    ((createMap_keys_nonempty [⟨"/a", "u"⟩]).1 "/a").mpr ⟨⟨"/a", "u"⟩, by decide, rfl⟩,
    (createMap_keys_nonempty [⟨"", "u"⟩]).2.2 ⟨⟨"", "u"⟩, by decide, rfl⟩⟩

/-- Counterexample to C7 as stated: one entry with the empty path and url "u"
(what a source record whose "path" field is "" or absent decodes to) makes the
empty string a key of the table. -/
theorem createMap_empty_key :
    (createMap [⟨"", "u"⟩]).get "" = some "u"
    ∧ ¬ (∀ k : String, (createMap [⟨"", "u"⟩]).get k ≠ none → k ≠ "") := by
  refine ⟨by decide, ?_⟩
  intro hall
  exact hall "" (by decide) rfl

/-! ## The handler chain -/

/-- C4. Chain precedence of the fold `H0 = D`, `Hi = MapHandler(Ti, H(i-1))`:
when `i` is the largest index whose table has the request path as a key, the
final handler's effect is the 302 redirect to that table's value (and a
logged `D` is not invoked); when no table has the path as a key, the final
handler's result is `D`'s result and a logged `D` is invoked exactly once,
with the original request.  In the scenario of the static map
{"/docs": "https://example.com/docs"}, then the source
[("/blog", "https://example.com/blog")], over the default `hello`: "/docs" and
"/blog" are redirected to their targets and "/missing" gets `hello`'s
"Hello, world!". -/
theorem chain_precedence :
    (∀ (σ : Type) (http : Http σ) (Ts : List GoMap) (D : Handler σ) (w : σ) (r : Request)
        (i : Nat) (T : GoMap) (u : String),
        Ts[i]? = some T → T.get r.URL.Path = some u →
        (∀ (j : Nat) (T' : GoMap), i < j → Ts[j]? = some T' → T'.get r.URL.Path = none) →
        chain http Ts D w r = http.Redirect w r u 302
        ∧ ∀ log : List Request,
            chain http.logged Ts (spied D) (w, log) r = (http.Redirect w r u 302, log))
    ∧ (∀ (σ : Type) (http : Http σ) (Ts : List GoMap) (D : Handler σ) (w : σ) (r : Request),
        (∀ T ∈ Ts, T.get r.URL.Path = none) →
        chain http Ts D w r = D w r
        ∧ ∀ log : List Request,
            chain http.logged Ts (spied D) (w, log) r = (D w r, log ++ [r]))
    ∧ chain recorder [GoMap.ofList [("/docs", "https://example.com/docs")],
          createMap [⟨"/blog", "https://example.com/blog"⟩]] (hello recorder) []
          (getRequest "/docs")
        = [Call.redirect (getRequest "/docs") "https://example.com/docs" 302]
    ∧ chain recorder [GoMap.ofList [("/docs", "https://example.com/docs")],
          createMap [⟨"/blog", "https://example.com/blog"⟩]] (hello recorder) []
          (getRequest "/blog")
        = [Call.redirect (getRequest "/blog") "https://example.com/blog" 302]
    ∧ chain recorder [GoMap.ofList [("/docs", "https://example.com/docs")],
          createMap [⟨"/blog", "https://example.com/blog"⟩]] (hello recorder) []
          (getRequest "/missing")
        = [Call.fprintln "Hello, world!"] := by
  refine ⟨?_, ?_, by decide, by decide, by decide⟩
  · intro σ http Ts D w r i T u hi hT hlater
    refine ⟨chain_hit_index http Ts D w r i T u hi hT hlater, ?_⟩
    intro log
    exact chain_hit_index http.logged Ts (spied D) (w, log) r i T u hi hT hlater
  · intro σ http Ts D w r hmiss
    refine ⟨chain_miss http Ts D w r hmiss, ?_⟩
    intro log
    exact chain_miss http.logged Ts (spied D) (w, log) r hmiss

/-- Witness of C4: with the tables [{"/x": "first"}, {"/x": "second"}, {"/y": "other"}]
the largest index holding "/x" is 1, and no table holds "/z". -/
theorem chain_precedence_witness :
    chain recorder [GoMap.ofList [("/x", "first")], GoMap.ofList [("/x", "second")],
        GoMap.ofList [("/y", "other")]] (hello recorder) [] (getRequest "/x")
      = [Call.redirect (getRequest "/x") "second" 302]
    ∧ chain recorder.logged [GoMap.ofList [("/x", "first")], GoMap.ofList [("/x", "second")],
        GoMap.ofList [("/y", "other")]] (spied (hello recorder)) ([], []) (getRequest "/z")
      = ([Call.fprintln "Hello, world!"], [getRequest "/z"]) := by
  refine ⟨?_, ?_⟩
  · refine (chain_precedence.1 (List Call) recorder _ (hello recorder) [] (getRequest "/x") 1
      (GoMap.ofList [("/x", "second")]) "second" rfl (by decide) ?_).1
    intro j T' hj hT'
    match j, hj, hT' with
    | 2, _, hT' =>
      have h2 : T' = GoMap.ofList [("/y", "other")] := (Option.some.inj hT').symm
      rw [h2]
      decide
    | (n + 3), _, hT' => cases hT'
  · refine (chain_precedence.2.1 (List Call) recorder _ (hello recorder) [] (getRequest "/z")
      ?_).2 []
    intro T hT
    simp only [List.mem_cons, List.mem_singleton, List.not_mem_nil, or_false] at hT
    rcases hT with rfl | rfl | rfl <;> decide

/-- C5. Order sensitivity: when `T1` and `T2` both hold the request path, with
different targets `u1` and `u2`, the handler with `T2` built last redirects to
`u2` and the handler built in the swapped order redirects to `u1`; on the
recording writer the two responses differ. -/
theorem chain_order_sensitive {σ : Type} (http : Http σ) (T1 T2 : GoMap) (D : Handler σ)
    (w : σ) (r : Request) (u1 u2 : String) (h1 : T1.get r.URL.Path = some u1)
    (h2 : T2.get r.URL.Path = some u2) (hne : u1 ≠ u2) :
    MapHandler http T2 (MapHandler http T1 D) w r = http.Redirect w r u2 302
    ∧ MapHandler http T1 (MapHandler http T2 D) w r = http.Redirect w r u1 302
    ∧ chain http [T1, T2] D w r = http.Redirect w r u2 302
    ∧ chain http [T2, T1] D w r = http.Redirect w r u1 302
    ∧ (∀ (D' : Handler (List Call)) (w' : List Call),
        MapHandler recorder T2 (MapHandler recorder T1 D') w' r
          ≠ MapHandler recorder T1 (MapHandler recorder T2 D') w' r) := by
  have hA : ∀ (τ : Type) (lib : Http τ) (X : Handler τ) (v : τ),
      MapHandler lib T2 X v r = lib.Redirect v r u2 302 :=
    fun τ lib X v => MapHandler_some lib T2 X v r u2 h2
  have hB : ∀ (τ : Type) (lib : Http τ) (X : Handler τ) (v : τ),
      MapHandler lib T1 X v r = lib.Redirect v r u1 302 :=
    fun τ lib X v => MapHandler_some lib T1 X v r u1 h1
  refine ⟨hA σ http _ w, hB σ http _ w, hA σ http _ w, hB σ http _ w, ?_⟩
  intro D' w' heq
  rw [hA, hB] at heq
  have hlast := List.append_cancel_left heq
  simp only [List.cons.injEq, Call.redirect.injEq, and_true, true_and] at hlast
  exact hne hlast.symm

/-- Witness of C5: the tables {"/a": "one"} and {"/a": "two"}. -/
theorem chain_order_sensitive_witness :
    MapHandler recorder (GoMap.ofList [("/a", "two")])
        (MapHandler recorder (GoMap.ofList [("/a", "one")]) (hello recorder)) []
        (getRequest "/a") = [Call.redirect (getRequest "/a") "two" 302]
    ∧ MapHandler recorder (GoMap.ofList [("/a", "one")])
        (MapHandler recorder (GoMap.ofList [("/a", "two")]) (hello recorder)) []
        (getRequest "/a") = [Call.redirect (getRequest "/a") "one" 302] :=
  have hw := chain_order_sensitive recorder (GoMap.ofList [("/a", "one")])
    (GoMap.ofList [("/a", "two")]) (hello recorder) [] (getRequest "/a") "one" "two"
    (by decide) (by decide) (by decide)
  ⟨hw.1, hw.2.1⟩

/-! ## `YAMLHandler` and `JSONHandler` -/

theorem parseYml_cases (unm : Unmarshal) (bytes : List UInt8) :
    (∃ err, (parseYml unm bytes) = ([], some err) ∧ (unm bytes []).2 = some err)
    ∨ (parseYml unm bytes = ((unm bytes []).1, none) ∧ (unm bytes []).2 = none) := by
  unfold parseYml
  rcases hu : unm bytes [] with ⟨out, _ | err⟩
  · exact Or.inr ⟨rfl, rfl⟩
  · exact Or.inl ⟨err, rfl, rfl⟩

theorem parseJSON_cases (unm : Unmarshal) (bytes : List UInt8) :
    (∃ err, (parseJSON unm bytes) = ([], some err) ∧ (unm bytes []).2 = some err)
    ∨ (parseJSON unm bytes = ((unm bytes []).1, none) ∧ (unm bytes []).2 = none) := by
  unfold parseJSON
  rcases hu : unm bytes [] with ⟨out, _ | err⟩
  · exact Or.inr ⟨rfl, rfl⟩
  · exact Or.inl ⟨err, rfl, rfl⟩

theorem YAMLHandler_err {σ : Type} (http : Http σ) (unm : Unmarshal) (bytes : List UInt8)
    (F : Handler σ) (err : Error) (h : (parseYml unm bytes).2 = some err) :
    YAMLHandler http unm bytes F = (none, some err) := by
  unfold YAMLHandler
  rcases hp : parseYml unm bytes with ⟨E, _ | e⟩
  · rw [hp] at h; cases h
  · rw [hp] at h; cases h; rfl

theorem YAMLHandler_ok {σ : Type} (http : Http σ) (unm : Unmarshal) (bytes : List UInt8)
    (F : Handler σ) (h : (parseYml unm bytes).2 = none) :
    YAMLHandler http unm bytes F
      = (some (MapHandler http (createMap (parseYml unm bytes).1) F), none) := by
  unfold YAMLHandler
  rcases hp : parseYml unm bytes with ⟨E, _ | e⟩
  · rfl
  · rw [hp] at h; cases h

theorem JSONHandler_err {σ : Type} (http : Http σ) (unm : Unmarshal) (bytes : List UInt8)
    (F : Handler σ) (err : Error) (h : (parseJSON unm bytes).2 = some err) :
    JSONHandler http unm bytes F = (none, some err) := by
  unfold JSONHandler
  rcases hp : parseJSON unm bytes with ⟨E, _ | e⟩
  · rw [hp] at h; cases h
  · rw [hp] at h; cases h; rfl

theorem JSONHandler_ok {σ : Type} (http : Http σ) (unm : Unmarshal) (bytes : List UInt8)
    (F : Handler σ) (h : (parseJSON unm bytes).2 = none) :
    JSONHandler http unm bytes F
      = (some (MapHandler http (createMap (parseJSON unm bytes).1) F), none) := by
  unfold JSONHandler
  rcases hp : parseJSON unm bytes with ⟨E, _ | e⟩
  · rfl
  · rw [hp] at h; cases h

/-- C6. `YAMLHandler` and `JSONHandler` fail exactly when their parser fails:
the error they return is the error `parseYml` / `parseJSON` returns (so no
other error arises); when the parser returns an error the result is the `nil`
handler with that error, whatever the fallback; when the parser returns
entries `E` without error the result is `MapHandler(createMap(E), fallback)`
without error. -/
theorem handlers_fail_iff_parser_fails {σ : Type} (http : Http σ) (unm : Unmarshal)
    (bytes : List UInt8) (F : Handler σ) :
    ((YAMLHandler http unm bytes F).2 = (parseYml unm bytes).2
      ∧ ((YAMLHandler http unm bytes F).1 = none ↔ (parseYml unm bytes).2 ≠ none)
      ∧ (∀ err, (parseYml unm bytes).2 = some err →
          ∀ F' : Handler σ, YAMLHandler http unm bytes F' = (none, some err))
      ∧ (∀ E, parseYml unm bytes = (E, none) →
          YAMLHandler http unm bytes F = (some (MapHandler http (createMap E) F), none)))
    ∧ ((JSONHandler http unm bytes F).2 = (parseJSON unm bytes).2
      ∧ ((JSONHandler http unm bytes F).1 = none ↔ (parseJSON unm bytes).2 ≠ none)
      ∧ (∀ err, (parseJSON unm bytes).2 = some err →
          ∀ F' : Handler σ, JSONHandler http unm bytes F' = (none, some err))
      ∧ (∀ E, parseJSON unm bytes = (E, none) →
          JSONHandler http unm bytes F = (some (MapHandler http (createMap E) F), none))) := by
  constructor
  · refine ⟨?_, ?_, ?_, ?_⟩
    · cases h : (parseYml unm bytes).2 with
      | none => rw [YAMLHandler_ok http unm bytes F h]
      | some err => rw [YAMLHandler_err http unm bytes F err h]
    · cases h : (parseYml unm bytes).2 with
      | none => rw [YAMLHandler_ok http unm bytes F h]; simp
      | some err => rw [YAMLHandler_err http unm bytes F err h]; simp
    · intro err h F'
      exact YAMLHandler_err http unm bytes F' err h
    · intro E h
      have h2 : (parseYml unm bytes).2 = none := by rw [h]
      rw [YAMLHandler_ok http unm bytes F h2, h]
  · refine ⟨?_, ?_, ?_, ?_⟩
    · cases h : (parseJSON unm bytes).2 with
      | none => rw [JSONHandler_ok http unm bytes F h]
      | some err => rw [JSONHandler_err http unm bytes F err h]
    · cases h : (parseJSON unm bytes).2 with
      | none => rw [JSONHandler_ok http unm bytes F h]; simp
      | some err => rw [JSONHandler_err http unm bytes F err h]; simp
    · intro err h F'
      exact JSONHandler_err http unm bytes F' err h
    · intro E h
      have h2 : (parseJSON unm bytes).2 = none := by rw [h]
      rw [JSONHandler_ok http unm bytes F h2, h]

/-- Witness of C6: a decoder that reports "yaml: line 1" after filling in one
entry gives the `nil` handler with that error; a decoder that yields
[("/blog", "b")] without error gives no error. -/
theorem handlers_fail_iff_parser_fails_witness :
    YAMLHandler recorder (fun _ _ => ([⟨"/a", "u"⟩], some "yaml: line 1")) [] (hello recorder)
      = (none, some "yaml: line 1")
    ∧ (JSONHandler recorder (fun _ _ => ([⟨"/blog", "b"⟩], none)) [] (hello recorder)).2
      = none :=
  ⟨(handlers_fail_iff_parser_fails recorder (fun _ _ => ([⟨"/a", "u"⟩], some "yaml: line 1")) []
      (hello recorder)).1.2.2.1 "yaml: line 1" rfl (hello recorder),
   (handlers_fail_iff_parser_fails recorder (fun _ _ => ([⟨"/blog", "b"⟩], none)) []
      (hello recorder)).2.1⟩

/-! ## Determinism, path-only dispatch, flattening -/

/-- C8. Building the chain twice from identical sources gives the same
response to every request: for equal lists of entry sequences and default
handlers that agree everywhere, the two chains agree on every request, and
both issue the same 302 redirect or both return the default's response. -/
theorem chain_deterministic {σ : Type} (http : Http σ) (sources sources' : List (List Entry))
    (D D' : Handler σ) (hs : sources = sources') (hD : ∀ w r, D w r = D' w r)
    (w : σ) (r : Request) :
    chain http (sources.map createMap) D w r = chain http (sources'.map createMap) D' w r
    ∧ ((∃ u, chain http (sources.map createMap) D w r = http.Redirect w r u 302
          ∧ chain http (sources'.map createMap) D' w r = http.Redirect w r u 302)
      ∨ (chain http (sources.map createMap) D w r = D w r
          ∧ chain http (sources'.map createMap) D' w r = D' w r)) := by
  subst hs
  have hagree := chain_congr http (sources.map createMap) D D' hD w r
  refine ⟨hagree, ?_⟩
  rcases chain_redirect_or_default http (sources.map createMap) D w r with
    ⟨u, _, hu⟩ | ⟨_, hd⟩
  · exact Or.inl ⟨u, hu, hagree ▸ hu⟩
  · exact Or.inr ⟨hd, by rw [← hagree, hd, hD]⟩

/-- Witness of C8: the sources [[("/a", "u")], [("/b", "v")]] over `hello`,
written out twice, on a GET of "/b": both builds redirect to "v". -/
theorem chain_deterministic_witness :
    chain recorder ([[(⟨"/a", "u"⟩ : Entry)], [⟨"/b", "v"⟩]].map createMap) (hello recorder) []
        (getRequest "/b")
      = chain recorder (([[(⟨"/a", "u"⟩ : Entry)]] ++ [[(⟨"/b", "v"⟩ : Entry)]]).map createMap)
          (fun w _ => w ++ [Call.fprintln "Hello, world!"]) [] (getRequest "/b")
    ∧ chain recorder ([[(⟨"/a", "u"⟩ : Entry)], [⟨"/b", "v"⟩]].map createMap) (hello recorder) []
        (getRequest "/b") = [Call.redirect (getRequest "/b") "v" 302] :=
  ⟨(chain_deterministic recorder [[⟨"/a", "u"⟩], [⟨"/b", "v"⟩]]
      ([[(⟨"/a", "u"⟩ : Entry)]] ++ [[(⟨"/b", "v"⟩ : Entry)]]) (hello recorder)
      (fun w _ => w ++ [Call.fprintln "Hello, world!"]) (by decide) (fun _ _ => rfl) []
      (getRequest "/b")).1, by decide⟩

/-- C9. The handler decides on the request path alone, by exact equality: two
requests with the same path are both redirected to the same stored target or
both handed to the fallback; the outcome for a request depends on the table
only through its value at exactly the request path; and a table with the
single key `k` redirects a request exactly when its path equals `k` (so
"/a/b", "/A" and "/a/" are not matched by the key "/a"). -/
theorem MapHandler_path_only {σ : Type} (http : Http σ) (T : GoMap) (F : Handler σ) (w : σ)
    (r1 r2 : Request) (h : r1.URL.Path = r2.URL.Path) :
    ((∃ u, T.get r1.URL.Path = some u
          ∧ MapHandler http T F w r1 = http.Redirect w r1 u 302
          ∧ MapHandler http T F w r2 = http.Redirect w r2 u 302)
      ∨ (T.get r1.URL.Path = none
          ∧ MapHandler http T F w r1 = F w r1
          ∧ MapHandler http T F w r2 = F w r2))
    ∧ (∀ T' : GoMap, T'.get r1.URL.Path = T.get r1.URL.Path →
        MapHandler http T' F w r1 = MapHandler http T F w r1)
    ∧ (∀ k u : String,
        (r1.URL.Path = k →
          MapHandler http (GoMap.make.set k u) F w r1 = http.Redirect w r1 u 302)
        ∧ (r1.URL.Path ≠ k → MapHandler http (GoMap.make.set k u) F w r1 = F w r1))
    ∧ MapHandler recorder (GoMap.ofList [("/a", "u")]) (hello recorder) [] (getRequest "/a/b")
        = [Call.fprintln "Hello, world!"]
    ∧ MapHandler recorder (GoMap.ofList [("/a", "u")]) (hello recorder) [] (getRequest "/A")
        = [Call.fprintln "Hello, world!"]
    ∧ MapHandler recorder (GoMap.ofList [("/a", "u")]) (hello recorder) [] (getRequest "/a/")
        = [Call.fprintln "Hello, world!"] := by
  refine ⟨?_, ?_, ?_, by decide, by decide, by decide⟩
  · cases hT : T.get r1.URL.Path with
    | none =>
      exact Or.inr ⟨rfl, MapHandler_none http T F w r1 hT,
        MapHandler_none http T F w r2 (h ▸ hT)⟩
    | some u =>
      exact Or.inl ⟨u, rfl, MapHandler_some http T F w r1 u hT,
        MapHandler_some http T F w r2 u (h ▸ hT)⟩
  · intro T' hT'
    simp only [MapHandler, hT']
  · intro k u
    constructor
    · intro hk
      exact MapHandler_some http _ F w r1 u (hk ▸ GoMap.get_set_same GoMap.make _ u)
    · intro hk
      exact MapHandler_none http _ F w r1
        ((GoMap.get_set_other GoMap.make k u r1.URL.Path hk).trans rfl)

/-- Witness of C9: a GET and a POST of "/a" with different query, header and
body, against the table {"/a": "u"}: both are redirected to "u". -/
theorem MapHandler_path_only_witness :
    MapHandler recorder (GoMap.ofList [("/a", "u")]) (hello recorder) [] (getRequest "/a")
      = [Call.redirect (getRequest "/a") "u" 302]
    ∧ MapHandler recorder (GoMap.ofList [("/a", "u")]) (hello recorder) []
        ⟨"POST", ⟨"/a", "x=1"⟩, [("Accept", "text/html")], "payload"⟩
      = [Call.redirect ⟨"POST", ⟨"/a", "x=1"⟩, [("Accept", "text/html")], "payload"⟩ "u" 302] := by
  rcases (MapHandler_path_only recorder (GoMap.ofList [("/a", "u")]) (hello recorder) []
    (getRequest "/a") ⟨"POST", ⟨"/a", "x=1"⟩, [("Accept", "text/html")], "payload"⟩ rfl).1 with
    ⟨u, hu, h1, h2⟩ | ⟨hnone, _, _⟩
  · have hu2 : u = "u" := by
      have hget : (GoMap.ofList [("/a", "u")]).get (getRequest "/a").URL.Path = some "u" := by
        decide
      rw [hget] at hu
      exact (Option.some.inj hu).symm
    subst hu2
    exact ⟨h1, h2⟩
  · exact absurd hnone (by decide)

/-- C10. Chain flattening: two nested layers are the single handler over the
union of `T1` and `T2` that keeps `T2`'s value on common keys; a chain over
any list of tables is the single handler over their right-biased merge; a
layer with an empty table is its fallback; and `createMap` of two entry
sequences one after the other is that union of their tables. -/
theorem chain_flattening {σ : Type} (http : Http σ) (T1 T2 : GoMap) (Ts : List GoMap)
    (E1 E2 : List Entry) (D : Handler σ) :
    MapHandler http T2 (MapHandler http T1 D) = MapHandler http (merge T1 T2) D
    ∧ (∀ k : String, (merge T1 T2).get k = if T2.get k = none then T1.get k else T2.get k)
    ∧ chain http Ts D = MapHandler http (mergeAll Ts) D
    ∧ MapHandler http GoMap.make D = D
    ∧ createMap (E1 ++ E2) = merge (createMap E1) (createMap E2) := by
  refine ⟨MapHandler_merge http T1 T2 D, ?_, chain_eq_mergeAll http Ts D,
    MapHandler_make http D, ?_⟩
  · intro k
    cases h : T2 k with
    | none => simp [merge, GoMap.get, h]
    | some v => simp [merge, GoMap.get, h]
  · show createMapFrom GoMap.make (E1 ++ E2) = _
    rw [createMapFrom_append, createMapFrom_eq_merge]
    rfl

/-- Witness of C10: {"/a": "one", "/b": "b"} under {"/a": "two"} on a GET of
"/a" and of "/b". -/
theorem chain_flattening_witness :
    MapHandler recorder (merge (GoMap.ofList [("/a", "one"), ("/b", "b")])
        (GoMap.ofList [("/a", "two")])) (hello recorder) [] (getRequest "/a")
      = [Call.redirect (getRequest "/a") "two" 302]
    ∧ MapHandler recorder (merge (GoMap.ofList [("/a", "one"), ("/b", "b")])
        (GoMap.ofList [("/a", "two")])) (hello recorder) [] (getRequest "/b")
      = [Call.redirect (getRequest "/b") "b" 302] := by
  have hw := (chain_flattening recorder (GoMap.ofList [("/a", "one"), ("/b", "b")])
    (GoMap.ofList [("/a", "two")]) [] [] [] (hello recorder)).1
  rw [← hw]
  exact ⟨by decide, by decide⟩

end Urlshort
